/-
  Verification of the bitcrust block-storage core against its specification.

  The development shallowly embeds the Rust sources:
    * src/bitcrust-lib/src/store/flatfileset.rs   (FlatFileSet, FilePtr, filenames)
    * src/bitcrust-lib/src/store/spent_tree/mod.rs (SpentTree, store/connect/find_end)
    * src/src/block_add.rs                         (orchestrator)
    * src/store/src/api/block.rs                   (header_add)
  Machine integers are modelled as Nat/Int with explicit `% 2^w` where wrap-around
  matters.  Modules of the repository that are not part of the provided sources
  (record.rs, fileptr.rs tag bits, hash_index.rs, flatfile.rs, the db layer) are
  modelled from the specification; each such definition carries a doc comment
  starting with `Modelled from the spec:`.
-/
import Mathlib

namespace Bitcrust

/-! ## 16-bit two's complement helpers (i16 semantics of the Rust sources) -/

/-- The 16-bit pattern of a Rust `i16` value, as a natural number below 65536. -/
def toNat16 (n : Int) : Nat := (n % 65536).toNat

/-- Reinterpret a 16-bit pattern as a signed `i16` value (two's complement). -/
def toI16 (n : Nat) : Int :=
  if n % 65536 < 32768 then ((n % 65536 : Nat) : Int)
  else ((n % 65536 : Nat) : Int) - 65536

/-! ## Filenames (flatfileset.rs: `filename_to_fileno`, `fileno_to_filename`) -/

/-- Embeds `char_to_hex` from flatfileset.rs: map an ASCII hex digit
(`A`-`F`, `a`-`f`, `0`-`9`) to its value, rejecting other bytes.  The Rust
function returns the value as `i16`; its value always lies in 0..15, so we
use `Nat`. -/
def char_to_hex (c : Char) : Option Nat :=
  let b := c.toNat
  if 65 ≤ b ∧ b ≤ 70 then some (b - 65 + 10)
  else if 97 ≤ b ∧ b ≤ 102 then some (b - 97 + 10)
  else if 48 ≤ b ∧ b ≤ 57 then some (b - 48)
  else none

/-- Embeds `filename_to_fileno` from flatfileset.rs: check the prefix and the
total length `pfx.length + 4`, parse the four hex characters, and assemble
`h0 << 12 | h1 << 8 | h2 << 4 | h3` with Rust `i16` shift/or semantics, i.e.
the 16-bit pattern reinterpreted as a signed value. -/
def filename_to_fileno (pfx : List Char) (name : List Char) : Option Int :=
  if ¬ pfx.isPrefixOf name then none
  else if name.length ≠ pfx.length + 4 then none
  else
    let p := pfx.length
    match char_to_hex (name.getD p ' '), char_to_hex (name.getD (p+1) ' '),
          char_to_hex (name.getD (p+2) ' '), char_to_hex (name.getD (p+3) ' ') with
    | some h0, some h1, some h2, some h3 =>
        -- `h0 << 12 | h1 << 8 | h2 << 4 | h3` on `i16`: the four 4-bit
        -- fields are disjoint, so the assembled 16-bit pattern is the sum
        -- below; the `i16` shift wraps, i.e. the pattern is read as signed.
        some (toI16 (h0 * 4096 + h1 * 256 + h2 * 16 + h3))
    | _, _, _, _ => none

/-- Lowercase hex digit character, as produced by Rust `{:02x}` formatting. -/
def hexDigitChar (n : Nat) : Char :=
  if n < 10 then Char.ofNat (48 + n) else Char.ofNat (97 + (n - 10))

/-- Two lowercase hex digits of a byte value, as Rust `{:02x}` prints for
values in 0..255. -/
def format02x (n : Nat) : List Char :=
  [hexDigitChar (n / 16), hexDigitChar (n % 16)]

/-- Embeds `fileno_to_filename` from flatfileset.rs: the name is the prefix
followed by `{:02x}` of `(fileno >> 8) & 0xFF` and `{:02x}` of `fileno & 0xFF`.
On `i16`, `>> 8` is an arithmetic shift and `& 0xFF` keeps the low 8 bits,
so the two formatted bytes are the high and the low byte of the 16-bit
two's-complement pattern `toNat16 fileno`. -/
def fileno_to_filename (pfx : List Char) (fileno : Int) : List Char :=
  pfx ++ format02x (toNat16 fileno / 256) ++ format02x (toNat16 fileno % 256)

/-- The four lowercase hex digits of a 16-bit pattern, most significant first
(the spec's description of the filename suffix). -/
def hexSuffixBE (u : Nat) : List Char :=
  [hexDigitChar (u / 4096 % 16), hexDigitChar (u / 256 % 16),
   hexDigitChar (u / 16 % 16), hexDigitChar (u % 16)]

/-! ## FilePtr (flatfileset.rs: 64-bit packed file number / file position) -/

/-- Embeds `FilePtr` from flatfileset.rs: a `u64` holding the low 16 bits of
the signed file number at bit 32 and the 32-bit file position in the low bits.
`FilePtr::new` masks with `0xFFFF_0000_0000` and `0xFFFF_FFFF`. -/
structure FilePtr where
  /-- The packed `u64` value. -/
  val : Nat
deriving DecidableEq, Repr

/-- Embeds `FilePtr::new(fileno, filepos)`. -/
def FilePtr.new (fileno : Int) (filepos : Nat) : FilePtr :=
  ⟨toNat16 fileno * 4294967296 + filepos % 4294967296⟩

/-- Embeds `FilePtr::file_number`: `((x >> 32) & 0xFFFF) as i16`. -/
def FilePtr.file_number (p : FilePtr) : Int :=
  toI16 (p.val / 4294967296 % 65536)

/-- Embeds `FilePtr::file_pos`: `x & 0xFFFF_FFFF`. -/
def FilePtr.file_pos (p : FilePtr) : Nat := p.val % 4294967296

/-! ## FlatFile and FlatFileSet (flatfileset.rs, flatfile.rs)

A flat file is a memory-mapped region.  We model its byte contents as a total
function `Nat → Nat` (a byte per offset) together with the header's write
position word.  In the real file the write position lives at byte offset 4 of
the mapping (flatfile.rs is not among the sources; `get_size`/`put_size`
access this word, which we model as a separate field). -/

structure FlatFile where
  /-- The 4-byte "current write position" header word (offset 4 of the file). -/
  size : Nat
  /-- The mapped bytes of the file. -/
  bytes : Nat → Nat

/-- Write the bytes of `buf` at offsets `pos, pos+1, ...` (Rust `put_bytes`,
a slice copy into the mapping). -/
def writeBytes (g : Nat → Nat) (buf : List Nat) (pos : Nat) : Nat → Nat :=
  fun q => if pos ≤ q ∧ q < pos + buf.length then buf.getD (q - pos) 0 else g q

/-- The four bytes of a `u32` value in little-endian order (host order of the
reference platform), as laid down by a typed `put` of a `u32`. -/
def leBytes32 (n : Nat) : List Nat :=
  [n % 256, n / 256 % 256, n / 65536 % 256, n / 16777216 % 256]

/-- Read back a `u32` stored at `pos` (typed `get::<u32>` on the mapping). -/
def readLE32 (g : Nat → Nat) (pos : Nat) : Nat :=
  g pos + 256 * g (pos + 1) + 65536 * g (pos + 2) + 16777216 * g (pos + 3)

/-- Embeds `FlatFile::put_bytes`. -/
def FlatFile.put_bytes (f : FlatFile) (buf : List Nat) (pos : Nat) : FlatFile :=
  { f with bytes := writeBytes f.bytes buf pos }

/-- Embeds the typed `FlatFile::put` of a `u32` length value (the caller
passes a value below 2^32; `leBytes32` lays down its four bytes). -/
def FlatFile.put_u32 (f : FlatFile) (v : Nat) (pos : Nat) : FlatFile :=
  f.put_bytes (leBytes32 v) pos

/-- Embeds `FlatFile::put_size` (store the header's write-position word). -/
def FlatFile.put_size (f : FlatFile) (v : Nat) : FlatFile := { f with size := v }

/-- Embeds `FlatFile::get_size`. -/
def FlatFile.get_size (f : FlatFile) : Nat := f.size

/-- Embeds `FlatFile::get_bytes pos len`. -/
def FlatFile.get_bytes (f : FlatFile) (pos len : Nat) : List Nat :=
  (List.range len).map (fun i => f.bytes (pos + i))

/-- Embeds `FlatFileSet` from flatfileset.rs.  The `maps` vector of lazily
opened memory maps is modelled as a total map from file number to file
contents: opening a file is observationally a no-op. -/
structure FlatFileSet where
  first_file : Int
  last_file : Int
  files : Int → FlatFile
  start_size : Nat
  max_size : Nat

/-- Replace the contents of one file of the set. -/
def FlatFileSet.setFile (fs : FlatFileSet) (fileno : Int) (f : FlatFile) :
    FlatFileSet :=
  { fs with files := fun n => if n = fileno then f else fs.files n }

/-- Embeds `create_next_file`: create file number `last_file - 1`, sized
`start_size` and zero-filled (`set_len`), with the write position initialised
to 16 (`put_size(16)`). -/
def FlatFileSet.create_next_file (fs : FlatFileSet) : FlatFileSet :=
  fs.setFile (fs.last_file - 1) { size := 16, bytes := fun _ => 0 }

/-- The branch of `FlatFileSet::write` that has enough room in the tail
file: store the 4-byte length `buffer.len() as u32` at the write position,
the payload right after it, update the header's write position (`u32`
arithmetic), and return a pointer to the write position. -/
def FlatFileSet.writeNoRoll (fs : FlatFileSet) (buffer : List Nat) :
    FilePtr × FlatFileSet :=
  let fileno := fs.last_file - 1
  let writePos := (fs.files fileno).get_size
  let f1 := (fs.files fileno).put_u32 (buffer.length % 4294967296) writePos
  let f2 := f1.put_bytes buffer (writePos + 4)
  let f3 := f2.put_size ((writePos + 4 + buffer.length % 4294967296) % 4294967296)
  (FilePtr.new fileno writePos, fs.setFile fileno f3)

/-- Embeds `FlatFileSet::write`, fuelled: the Rust function recurses into a
freshly created file when the tail file is full; the fuel bounds that
recursion (2 suffices whenever `16 < max_size`).  Returns `none` when the
fuel runs out.  Step one creates file 0 when the set is empty; the advisory
file locks have no observable effect in this sequential model. -/
def FlatFileSet.writeAux : Nat → FlatFileSet → List Nat → Option (FilePtr × FlatFileSet)
  | 0, _, _ => none
  | fuel + 1, fs0, buffer =>
    let fs := if fs0.first_file = fs0.last_file
              then FlatFileSet.create_next_file { fs0 with last_file := fs0.last_file + 1 }
              else fs0
    if fs.max_size ≤ (fs.files (fs.last_file - 1)).get_size then
      FlatFileSet.writeAux fuel
        (FlatFileSet.create_next_file { fs with last_file := fs.last_file + 1 }) buffer
    else
      some (fs.writeNoRoll buffer)

/-- Embeds `FlatFileSet::write` (the recursion depth of the Rust function is
at most 2 once `16 < max_size`, see `writeAux`). -/
def FlatFileSet.write (fs : FlatFileSet) (buffer : List Nat) :
    Option (FilePtr × FlatFileSet) :=
  FlatFileSet.writeAux 2 fs buffer

/-- Embeds `FlatFileSet::read`: read the 4-byte length stored at the pointer's
file position, then return the `len` bytes that follow it. -/
def FlatFileSet.read (fs : FlatFileSet) (pos : FilePtr) : List Nat :=
  let fileno := pos.file_number
  let filepos := pos.file_pos
  let map := fs.files fileno
  let len := readLE32 map.bytes filepos
  map.get_bytes (filepos + 4) len

/-- An empty fileset (fresh data directory): `find_min_max_filenumbers`
returns `(0, 0)` for an empty directory. -/
def FlatFileSet.empty (startSize maxSize : Nat) : FlatFileSet :=
  { first_file := 0, last_file := 0, files := fun _ => { size := 0, bytes := fun _ => 0 },
    start_size := startSize, max_size := maxSize }

/-! ## Content pointers and records (spent_tree/record.rs, store/fileptr.rs)

record.rs and the tag-bit layer of fileptr.rs are not among the provided
sources; the definitions below are modelled from the spec: a content pointer
is a tagged pointer into the block-content store with four kinds
(guard-blockheader, blockheader, transaction, output-with-index) plus null;
a record is a content pointer, a `previous` index whose sentinel
"unconnected" value we model as `none`, and an array of `SKIP_FIELDS`
skip entries initialised to -1. -/

/-- Modelled from the spec: the number of skip entries per record
(`params::SKIP_FIELDS`, params.rs absent; the spec gives K = 4..8). -/
def SKIP_FIELDS : Nat := 8

/-- Modelled from the spec: the tagged content pointer stored in a spent-tree
record (`FilePtr` tag bits, fileptr.rs absent).  `pos` is the byte position
in the block-content store; an untagged content pointer (as produced by
`FilePtr::new` in the spent-tree tests) has transaction kind. -/
inductive ContentPtr where
  | null : ContentPtr
  | guardHeader (pos : Nat) : ContentPtr
  | header (pos : Nat) : ContentPtr
  | transaction (pos : Nat) : ContentPtr
  | output (pos : Nat) (idx : Nat) : ContentPtr
deriving DecidableEq, Repr

/-- The content-store position a pointer refers to. -/
def ContentPtr.pos : ContentPtr → Nat
  | .null => 0
  | .guardHeader p => p
  | .header p => p
  | .transaction p => p
  | .output p _ => p

/-- Modelled from the spec: `FilePtr::to_guardblock` retags as a
guard-blockheader (block-start sentinel). -/
def ContentPtr.to_guardblock (c : ContentPtr) : ContentPtr := .guardHeader c.pos

/-- Modelled from the spec: `FilePtr::to_block` retags as a blockheader
(block-end sentinel). -/
def ContentPtr.to_block (c : ContentPtr) : ContentPtr := .header c.pos

/-- Modelled from the spec: `FilePtr::to_output idx` retags as the output
`idx` of the transaction the pointer refers to. -/
def ContentPtr.to_output (c : ContentPtr) (idx : Nat) : ContentPtr :=
  .output c.pos idx

/-- Embeds `FilePtr::is_blockheader`. -/
def ContentPtr.is_blockheader : ContentPtr → Bool
  | .header _ => true
  | _ => false

/-- Embeds `FilePtr::is_guard_blockheader`. -/
def ContentPtr.is_guard_blockheader : ContentPtr → Bool
  | .guardHeader _ => true
  | _ => false

/-- Embeds `FilePtr::is_transaction`. -/
def ContentPtr.is_transaction : ContentPtr → Bool
  | .transaction _ => true
  | _ => false

/-- Embeds `FilePtr::is_output`. -/
def ContentPtr.is_output : ContentPtr → Bool
  | .output _ _ => true
  | _ => false

/-- Modelled from the spec: a spent-tree record (record.rs absent): the
tagged content pointer, the `previous` index into the record file (`none` is
the sentinel "unconnected" value), and the skip entries.  Record positions
are counted in records; a position corresponds to the byte offset divided by
`size_of::<Record>()`. -/
structure Record where
  ptr : ContentPtr
  previous : Option Nat
  skips : List Int
deriving DecidableEq, Repr

/-- Modelled from the spec: `Record::new` keeps the tagged pointer and
initialises the skips to the sentinel -1; a fresh record is unconnected. -/
def Record.new (p : ContentPtr) : Record :=
  { ptr := p, previous := none, skips := List.replicate SKIP_FIELDS (-1) }

/-! ## SpentTree (spent_tree/mod.rs) -/

/-- Embeds `SpentTree`: the flat file of records, modelled as the list of
records in file order. -/
structure SpentTree where
  records : List Record
deriving DecidableEq, Repr

/-- Modelled from the spec: `RecordPtr::set_previous` writes the `previous`
field of the record at index `i` (out-of-range writes do not occur in the
verified executions). -/
def setPrev (records : List Record) (i : Nat) (v : Option Nat) : List Record :=
  match records.get? i with
  | none => records
  | some r => records.set i { r with previous := v }

/-- Embeds `SpentTree::create_block`: a guard-blockheader record, one record
per content pointer, then a blockheader record. -/
def SpentTree.create_block (blockheader : ContentPtr) (file_ptrs : List ContentPtr) :
    List Record :=
  Record.new blockheader.to_guardblock ::
    (file_ptrs.map Record.new ++ [Record.new blockheader.to_block])

/-- Embeds `BlockPtr`: pointers to the first and last record of a stored
block. -/
structure BlockPtr where
  start : Nat
  end_ : Nat
deriving DecidableEq, Repr

/-- Embeds `SpentTree::store_block`: build the record vector, append it with
one `write_all` call, and return pointers to its first and last record
(`end = start + (len - 1) * size_of::<Record>()` in bytes, i.e. `len - 1`
records further). -/
def SpentTree.store_block (st : SpentTree) (blockheader : ContentPtr)
    (file_ptrs : List ContentPtr) : BlockPtr × SpentTree :=
  let block := SpentTree.create_block blockheader file_ptrs
  let resultPtr := st.records.length
  ({ start := resultPtr, end_ := resultPtr + (block.length - 1) },
   { records := st.records ++ block })

/-- Embeds the loop of `SpentTree::find_end`, fuelled by the number of
remaining records: step to the next record in the block; a blockheader gets
its `previous` set to the record before it and its position is returned; any
other record has its skip entries reset to -1. -/
def findEndAux : Nat → List Record → Nat → Option (Nat × List Record)
  | 0, _, _ => none
  | fuel + 1, records, thisPtr =>
    let nextPtr := thisPtr + 1
    match records.get? nextPtr with
    | none => none
    | some record =>
      if record.ptr.is_blockheader then
        some (nextPtr, records.set nextPtr { record with previous := some (nextPtr - 1) })
      else
        findEndAux fuel
          (records.set nextPtr { record with skips := List.replicate SKIP_FIELDS (-1) })
          nextPtr

/-- Embeds `SpentTree::find_end`. -/
def SpentTree.find_end (st : SpentTree) (target_start : Nat) :
    Option (Nat × SpentTree) :=
  (findEndAux st.records.length st.records target_start).map
    (fun p => (p.1, ⟨p.2⟩))

/-- Embeds `SpendingError` from spent_tree/mod.rs. -/
inductive SpendingError where
  | outputNotFound : SpendingError
  | outputAlreadySpent : SpendingError
deriving DecidableEq, Repr

/-- Modelled from the spec: the backward scan of `Record::seek_and_set`
(record.rs absent), for an output record spending output `outIdx` of the
transaction at content position `txpos`.  Walking the `previous` chain from
index `j`: accept on a record whose content pointer is that transaction;
reject with `outputAlreadySpent` on a record whose content pointer is the
same output; reject with `outputNotFound` when the chain ends at a record
whose `previous` is still the sentinel (the start-guard of the branch root).
Skip-pointer acceleration is omitted: per the spec, skips are hints and the
scan's result does not depend on them.  `none` means out of fuel or a read
outside the record file. -/
def seekSpend (records : List Record) (txpos outIdx : Nat) :
    Nat → Nat → Option (Except SpendingError Unit)
  | 0, _ => none
  | fuel + 1, j =>
    match records.get? j with
    | none => none
    | some r =>
      if r.ptr = .transaction txpos then some (.ok ())
      else if r.ptr = .output txpos outIdx then some (.error .outputAlreadySpent)
      else
        match r.previous with
        | none => some (.error .outputNotFound)
        | some p => seekSpend records txpos outIdx fuel p

/-- Embeds `seek_and_set_inputs`, fuelled and sequential: scan the
`blockRem` records starting at index `idx`; a transaction record needs no
scan, an output record runs `seekSpend` from the record before it.  The Rust
function runs the scans in parallel and keeps the first error in record
order (`fold_results` over the indexed results); the sequential fold below
produces that same first error. -/
def seekAndSetInputs (records : List Record) (fuel : Nat) :
    Nat → Nat → Option (Except SpendingError Unit)
  | _, 0 => some (.ok ())
  | idx, blockRem + 1 =>
    match records.get? idx with
    | none => none
    | some r =>
      match r.ptr with
      | .output t k =>
        match seekSpend records t k fuel (idx - 1) with
        | none => none
        | some (.error e) => some (.error e)
        | some (.ok _) => seekAndSetInputs records fuel (idx + 1) blockRem
      | _ => seekAndSetInputs records fuel (idx + 1) blockRem

/-- Modelled from the spec: the record count of `this_ptr.iter(..).count()`
in `connect_block` (`RecordPtr::iter`, record.rs absent): the number of
transaction/output records of the block being connected, i.e. the records
strictly between the start guard at `thisPtr` and the block's end header
(exactly the slice `connect_block` then scans). -/
def countInterior : Nat → List Record → Nat → Option Nat
  | 0, _, _ => none
  | fuel + 1, records, thisPtr =>
    match records.get? (thisPtr + 1) with
    | none => none
    | some r =>
      if r.ptr.is_blockheader then some 0
      else (countInterior fuel records (thisPtr + 1)).map (· + 1)

/-- Modelled from the spec: `Record::set_prev_minus_one` applied to each
record of the scanned slice (`for r in block`): the record at index `i` gets
`previous = i - 1`, its immediate predecessor in the flat file. -/
def setPrevMinusOne (records : List Record) : Nat → Nat → List Record
  | _, 0 => records
  | start, n + 1 =>
    setPrevMinusOne (setPrev records start (some (start - 1))) (start + 1) n

/-- Embeds `SpentTree::connect_block`: link `target_start.previous :=
previous_end`, count the block's records, set each interior record's
`previous` to its predecessor, run the per-output scans, then set the end
header's `previous` and re-link the start guard.  The mutated record file is
returned also when a spending error aborts the connection (the Rust function
mutates in place through `&mut self`).  `none` models a diverging or
out-of-bounds execution, which does not occur in the verified runs. -/
def SpentTree.connect_block (st : SpentTree) (previous_end target_start : Nat) :
    Option (Except SpendingError Nat × SpentTree) :=
  let r1 := setPrev st.records target_start (some previous_end)
  match countInterior r1.length r1 target_start with
  | none => none
  | some blocksize =>
    let blockIdx := target_start + 1
    let r2 := setPrevMinusOne r1 blockIdx blocksize
    match seekAndSetInputs r2 r2.length blockIdx blocksize with
    | none => none
    | some (.error e) => some (.error e, ⟨r2⟩)
    | some (.ok _) =>
      let endPtr := target_start + 1 + blocksize
      let r3 := setPrev r2 endPtr (some (endPtr - 1))
      let r4 := setPrev r3 target_start (some previous_end)
      some (.ok endPtr, ⟨r4⟩)

/-! ## The `test_spent_tree_connect` scenario (spent_tree/mod.rs tests)

Block 1 holds tx 2; blocks 2a (tx 4) and 2b (tx 6) both spend output 0 of
tx 2 and are attached to block 1; block 3b (tx 8 spending output 1 of tx 6,
tx 9 spending output 1 of tx 2) fits on 2b only; block 4a (tx 11 spending
output 1 of tx 2, tx 12 spending output 2 of tx 2) fits on 2b but not on 3b.
The numbers are the content positions `FilePtr::new(0, n)` of the test's
`block!` macro. -/

def scnStore1 : BlockPtr × SpentTree :=
  SpentTree.store_block ⟨[]⟩ (.transaction 1) [.transaction 2]

def scnStore2a : BlockPtr × SpentTree :=
  scnStore1.2.store_block (.transaction 3) [.transaction 4, .output 2 0]

def scnStore2b : BlockPtr × SpentTree :=
  scnStore2a.2.store_block (.transaction 5) [.transaction 6, .output 2 0]

def scnFind1 : Option (Nat × SpentTree) :=
  scnStore2b.2.find_end scnStore1.1.start

def scnStA : SpentTree := (scnFind1.getD (0, ⟨[]⟩)).2

def scnConn2a : Option (Except SpendingError Nat × SpentTree) :=
  scnStA.connect_block scnStore1.1.end_ scnStore2a.1.start

def scnStB : SpentTree := (scnConn2a.getD (.ok 0, ⟨[]⟩)).2

def scnConn2b : Option (Except SpendingError Nat × SpentTree) :=
  scnStB.connect_block scnStore1.1.end_ scnStore2b.1.start

def scnStC : SpentTree := (scnConn2b.getD (.ok 0, ⟨[]⟩)).2

def scnStore3b : BlockPtr × SpentTree :=
  scnStC.store_block (.transaction 7)
    [.transaction 8, .output 6 1, .transaction 9, .output 2 1]

def scnConn3bBad : Option (Except SpendingError Nat × SpentTree) :=
  scnStore3b.2.connect_block scnStore2a.1.end_ scnStore3b.1.start

def scnStD : SpentTree := (scnConn3bBad.getD (.ok 0, ⟨[]⟩)).2

def scnConn3bGood : Option (Except SpendingError Nat × SpentTree) :=
  scnStD.connect_block scnStore2b.1.end_ scnStore3b.1.start

def scnStE : SpentTree := (scnConn3bGood.getD (.ok 0, ⟨[]⟩)).2

def scnStore4a : BlockPtr × SpentTree :=
  scnStE.store_block (.transaction 10)
    [.transaction 11, .output 2 1, .transaction 12, .output 2 2]

def scnConn4aBad : Option (Except SpendingError Nat × SpentTree) :=
  scnStore4a.2.connect_block scnStore3b.1.end_ scnStore4a.1.start

def scnStF : SpentTree := (scnConn4aBad.getD (.ok 0, ⟨[]⟩)).2

def scnConn4aGood : Option (Except SpendingError Nat × SpentTree) :=
  scnStF.connect_block scnStore2b.1.end_ scnStore4a.1.start

/-- A further block (header 99, tx 100 spending output 0 of tx 2) stored on
the state `scnStA`, used to exhibit the `previous`-field invariant. -/
def scnW : BlockPtr × SpentTree :=
  scnStA.store_block (.transaction 99) [.transaction 100, .output 2 0]

def scnWConn : Option (Except SpendingError Nat × SpentTree) :=
  scnW.2.connect_block 2 scnW.1.start

def scnWSt2 : SpentTree := (scnWConn.getD (.ok 0, ⟨[]⟩)).2


/-- The records visited by a backward walk along the `previous` chain from
index `j` (cut off by the fuel), together with a flag telling whether the
walk ended at a record whose `previous` is still the sentinel — the
start-guard of the ultimate branch root. -/
def chainWalk (records : List Record) : Nat → Nat → List Record × Bool
  | 0, _ => ([], false)
  | fuel + 1, j =>
    match records.get? j with
    | none => ([], false)
    | some r =>
      match r.previous with
      | none => ([r], true)
      | some p =>
        let rest := chainWalk records fuel p
        (r :: rest.1, rest.2)

/-- The declarative description of the per-output scan: look at the first
record on the branch whose content pointer is the spent transaction or the
spent output itself; accept if it is the transaction, reject with
`outputAlreadySpent` if it is the output, and reject with `outputNotFound`
if the walk reaches the branch root without any such record. -/
def scanOnBranch (records : List Record) (txpos outIdx : Nat) (fuel j : Nat) :
    Option (Except SpendingError Unit) :=
  let walk := chainWalk records fuel j
  match walk.1.find? (fun r => decide (r.ptr = .transaction txpos) ||
      decide (r.ptr = .output txpos outIdx)) with
  | some r =>
    if r.ptr = .transaction txpos then some (.ok ())
    else some (.error .outputAlreadySpent)
  | none => if walk.2 then some (.error .outputNotFound) else none


/-! ## Block-hash index and BlockAdd orchestrator (block_add.rs)

hash_index.rs is not among the provided sources; the index below is
modelled from the spec: a mapping from block hash to a set of entries that
are either guards (placed by a waiting child, pointing at the child's
block) or one concrete pointer, with CAS-style `set` that displaces
exactly the guards the caller has already solved. -/

/-- Modelled from the spec: an entry of the block-hash index — a block
pointer tagged as guard or concrete (`BlockPtr::to_guard` /
`to_non_guard`). -/
structure IndexEntry where
  block : BlockPtr
  isGuard : Bool
deriving DecidableEq, Repr

/-- Embeds `BlockPtr::to_guard`. -/
def BlockPtr.to_guard (bp : BlockPtr) : IndexEntry := ⟨bp, true⟩

/-- Embeds `BlockPtr::to_non_guard`. -/
def BlockPtr.to_non_guard (bp : BlockPtr) : IndexEntry := ⟨bp, false⟩

/-- Modelled from the spec: the block-hash index, an association list from
hash to its entries. -/
def HashIndex := List (Nat × List IndexEntry)
deriving DecidableEq, Repr

/-- Modelled from the spec: `HashIndex::get` returns all entries at a
hash. -/
def HashIndex.get (idx : HashIndex) (h : Nat) : List IndexEntry :=
  (((idx : List (Nat × List IndexEntry)).find? (fun e => decide (e.1 = h))).map
    Prod.snd).getD []

/-- Replace the entries stored at one hash. -/
def HashIndex.replaceEntry (idx : HashIndex) (h : Nat) (es : List IndexEntry) :
    HashIndex :=
  ((idx : List (Nat × List IndexEntry)).filter (fun e => !decide (e.1 = h))) ++ [(h, es)]

/-- Modelled from the spec: `HashIndex::set(hash, concrete, solved_guards)`
— the CAS-style bind succeeds (replacing the entries with the one concrete
pointer) exactly when every entry currently at the hash is among the guards
the caller solved; otherwise the index is unchanged and the caller re-reads
the guards. -/
def HashIndex.set (idx : HashIndex) (h : Nat) (e : IndexEntry)
    (solved : List IndexEntry) : Option HashIndex :=
  if (idx.get h).all (fun g => decide (g ∈ solved))
  then some (idx.replaceEntry h [e])
  else none

/-- Modelled from the spec: `HashIndex::get_or_set(hash, guard)` — return
the concrete entry when one exists, otherwise add the guard and return
nothing. -/
def HashIndex.get_or_set (idx : HashIndex) (h : Nat) (g : IndexEntry) :
    Option IndexEntry × HashIndex :=
  match (idx.get h).find? (fun e => !e.isGuard) with
  | some e => (some e, idx)
  | none => (none, idx.replaceEntry h (idx.get h ++ [g]))

/-- Embeds the parts of `Store` the orchestrator touches: the spent tree,
the block-hash index, the block-content arena (transaction and header
bytes), and — as an oracle, because the content store's read path is an
external collaborator — the hash of the block stored at a given spent-tree
record position (`get_block_hash`). -/
structure Store where
  spentTree : SpentTree
  blockIndex : HashIndex
  blockContent : List Nat
  blockHashOf : Nat → Nat

/-- Embeds the `Connection` entries of the orchestrator's LIFO todo
stack. -/
structure Connection where
  block : BlockPtr
  blockHash : Nat
  solvedGuards : List IndexEntry

/-- Embeds the per-guard body of the orchestrator's connection loop: skip
guards already solved; for a new guard, resolve its orphan pointers
(`rev`, a parameter — `revolve_orphan_pointers` parses transactions from
the absent content-store module and its effect is irrelevant to the claims
proved here), connect the guard's block onto the current block, propagate a
spending error with the mutated store, and push the connected child onto
the todo stack. -/
def connectChildren (rev : Store → Nat → Store) (conn : Connection) :
    List IndexEntry → List IndexEntry → Store → List Connection →
    Option (Except SpendingError (List Connection) × Store)
  | [], _, store, todo => some (.ok todo, store)
  | g :: rest, solved, store, todo =>
    if g ∈ solved then connectChildren rev conn rest solved store todo
    else
      let hash := store.blockHashOf g.block.start
      let store1 := rev store g.block.start
      match store1.spentTree.connect_block conn.block.end_ g.block.start with
      | none => none
      | some (.error e, st') => some (.error e, { store1 with spentTree := st' })
      | some (.ok _, st') =>
          connectChildren rev conn rest solved { store1 with spentTree := st' }
            (⟨g.block, hash, []⟩ :: todo)

/-- Embeds the orchestrator's `while let Some(conn) = todo.pop()` loop:
try to bind the block's hash; on failure re-read the guards, give up if a
concurrent add produced a concrete entry, otherwise re-push the connection
with the guards as solved and connect each fresh guard's child. -/
def connLoop (rev : Store → Nat → Store) :
    Nat → Store → List Connection → Option (Except SpendingError Unit × Store)
  | _, store, [] => some (.ok (), store)
  | 0, _, _ => none
  | fuel + 1, store, conn :: todo =>
    match store.blockIndex.set conn.blockHash conn.block.to_non_guard
        conn.solvedGuards with
    | some idx2 => connLoop rev fuel { store with blockIndex := idx2 } todo
    | none =>
      let guards := store.blockIndex.get conn.blockHash
      if guards.any (fun p => !p.isGuard) then
        connLoop rev fuel store todo
      else
        match connectChildren rev conn guards conn.solvedGuards store
            ({ conn with solvedGuards := guards } :: todo) with
        | none => none
        | some (.error e, store2) => some (.error e, store2)
        | some (.ok todo2, store2) => connLoop rev fuel store2 todo2

/-- Embeds `connect_block` of block_add.rs (the orchestrator): connect this
block onto its parent in the spent tree — propagating a spending error
before any index update — then run the todo loop that binds hashes and
connects waiting children. -/
def connectBlockOrch (rev : Store → Nat → Store) (fuel : Nat) (store : Store)
    (thisBlockHash : Nat) (previousBlock : Option BlockPtr) (thisBlock : BlockPtr) :
    Option (Except SpendingError Unit × Store) :=
  match previousBlock with
  | some prev =>
    match store.spentTree.connect_block prev.end_ thisBlock.start with
    | none => none
    | some (.error e, st') => some (.error e, { store with spentTree := st' })
    | some (.ok _, st') =>
        connLoop rev fuel { store with spentTree := st' }
          [⟨thisBlock, thisBlockHash, []⟩]
  | none => connLoop rev fuel store [⟨thisBlock, thisBlockHash, []⟩]

/-- Modelled from the spec: the parsed fields of an incoming raw block that
the orchestrator uses (parsing and double-SHA256 hashing are external
collaborators): the block's hash, the parent hash, the spent-tree record
pointers of its transactions and inputs, and the raw bytes stored into the
content arena. -/
structure ParsedBlock where
  hash : Nat
  prevHash : Nat
  txPtrs : List ContentPtr
  txData : List Nat
  headerData : List Nat
  headerPtr : ContentPtr

/-- Embeds `block_exists`: the hash is bound to some concrete (non-guard)
pointer. -/
def blockExists (store : Store) (blockHash : Nat) : Bool :=
  (store.blockIndex.get blockHash).any (fun p => !p.isGuard)

/-- Modelled from the spec: `verify_and_store_transactions` hashes,
verifies and stores the block's transactions (dedup included) and returns
their spent-tree records; modelled as appending the transaction bytes to
the content arena and yielding the pre-parsed record pointers. -/
def verifyAndStoreTransactions (store : Store) (b : ParsedBlock) :
    List ContentPtr × Store :=
  (b.txPtrs, { store with blockContent := store.blockContent ++ b.txData })

/-- Embeds `add_block`: return early when the block already exists; store
transactions and header, store the block's records in the spent tree, then
either connect from genesis, connect onto a present parent, or leave the
block as a guard under its parent's hash.  The `unwrap()` on a failed
connection (a panic in the source) is modelled as `none`. -/
def addBlock (genesisHash : Nat) (rev : Store → Nat → Store) (fuel : Nat)
    (store : Store) (b : ParsedBlock) : Option Store :=
  if blockExists store b.hash then some store
  else
    let r1 := verifyAndStoreTransactions store b
    let store2 := { r1.2 with blockContent := r1.2.blockContent ++ b.headerData }
    let r2 := store2.spentTree.store_block b.headerPtr r1.1
    let store3 := { store2 with spentTree := r2.2 }
    if b.hash = genesisHash then
      match connectBlockOrch rev fuel store3 b.hash none r2.1 with
      | some (.ok _, s) => some s
      | _ => none
    else
      match store3.blockIndex.get_or_set b.prevHash r2.1.to_guard with
      | (some prevEntry, idx2) =>
        match connectBlockOrch rev fuel { store3 with blockIndex := idx2 }
            b.hash (some prevEntry.block) r2.1 with
        | some (.ok _, s) => some s
        | _ => none
      | (none, idx2) => some { store3 with blockIndex := idx2 }


/-- A store holding the spent tree with blocks 1, 2a, 2b connected and 3b
stored, about to attempt the failing connection of 3b onto 2a. -/
def scnOrchStore : Store :=
  { spentTree := scnStore3b.2, blockIndex := [], blockContent := [],
    blockHashOf := fun _ => 0 }

/-- A store whose block-hash index binds hash 5 to a concrete pointer. -/
def scnDupStore : Store :=
  { spentTree := ⟨[]⟩, blockIndex := [(5, [⟨⟨0, 2⟩, false⟩])],
    blockContent := [], blockHashOf := fun _ => 0 }

/-- A block with hash 5 arriving a second time. -/
def scnDupBlock : ParsedBlock :=
  { hash := 5, prevHash := 0, txPtrs := [ContentPtr.transaction 3],
    txData := [1, 2], headerData := [3], headerPtr := .transaction 9 }


/-! ## Header database (store/src/api/block.rs)

The `db` layer (`db_header::get`, `write_header`, `DbHeader::new`) is not
among the provided sources; it is modelled from the spec as an in-memory
association list from header hash to stored header, with the pointer of an
entry being its position.  `get` is modelled total (the `DbError` branch of
the source covers I/O failures, which the in-memory model does not have). -/

/-- Modelled from the spec: the parsed block header fields `header_add`
uses — the parent hash; the remaining header bytes are opaque. -/
structure Header where
  prevHash : Nat
  rest : Nat
deriving DecidableEq, Repr

/-- Modelled from the spec: a stored header record (`DbHeader`): the header
itself, the pointer to its parent entry and a height accumulated from the
parent. -/
structure DbHeader where
  header : Header
  parentPtr : Nat
  height : Nat
deriving DecidableEq, Repr

/-- Modelled from the spec: `DbHeader::new(parent, parent_ptr, header)`. -/
def DbHeader.new (parent : DbHeader) (parentPtr : Nat) (header : Header) :
    DbHeader :=
  { header := header, parentPtr := parentPtr, height := parent.height + 1 }

/-- Modelled from the spec: the header database. -/
def Db := List (Nat × DbHeader)
deriving DecidableEq, Repr

/-- Modelled from the spec: `db_header::get` — look a hash up, returning
the entry's pointer and the stored header. -/
def db_header_get : Db → Nat → Option (Nat × DbHeader)
  | [], _ => none
  | (hh, d) :: rest, target =>
    if hh = target then some (0, d)
    else (db_header_get rest target).map (fun p => (p.1 + 1, p.2))

/-- Modelled from the spec: `db_header::write_header` appends one entry. -/
def db_write_header (db : Db) (hash : Nat) (d : DbHeader) : Db :=
  List.append db [(hash, d)]

/-- Embeds `HeaderAddResult` from store/src/api/block.rs. -/
inductive HeaderAddResult where
  | Ok : HeaderAddResult
  | AlreadyExists : HeaderAddResult
  | Invalid : HeaderAddResult
  | Orphan (prevHash : Nat) : HeaderAddResult
deriving DecidableEq, Repr

/-- Embeds `header_add`: AlreadyExists when the hash is present; otherwise
write one new DbHeader built from the parent when the parent hash is
present; otherwise Orphan with the parent hash. -/
def header_add (db : Db) (hash : Nat) (header : Header) : HeaderAddResult × Db :=
  match db_header_get db hash with
  | some _ => (.AlreadyExists, db)
  | none =>
    match db_header_get db header.prevHash with
    | some (parentPtr, parent) =>
      (.Ok, db_write_header db hash (DbHeader.new parent parentPtr header))
    | none => (.Orphan header.prevHash, db)

/-! ## Theorems -/

theorem toI16_toNat16 {i : Int} (h1 : -32768 ≤ i) (h2 : i ≤ 32767) :
    toI16 (toNat16 i) = i := by
  unfold toI16 toNat16
  split <;> omega

theorem toNat16_lt (i : Int) : toNat16 i < 65536 := by
  unfold toNat16; omega

theorem FilePtr.file_number_new (i : Int) (pos : Nat)
    (h1 : -32768 ≤ i) (h2 : i ≤ 32767) :
    (FilePtr.new i pos).file_number = i := by
  unfold FilePtr.new FilePtr.file_number
  dsimp only
  have := toNat16_lt i
  have hdiv : (toNat16 i * 4294967296 + pos % 4294967296) / 4294967296 % 65536
      = toNat16 i := by omega
  rw [hdiv, toI16_toNat16 h1 h2]

theorem FilePtr.file_pos_new (i : Int) (pos : Nat) (h : pos < 4294967296) :
    (FilePtr.new i pos).file_pos = pos := by
  unfold FilePtr.new FilePtr.file_pos
  dsimp only
  have := toNat16_lt i
  omega

theorem range_map_getD (l : List Nat) :
    (List.range l.length).map (fun i => l.getD i 0) = l := by
  apply List.ext_getElem
  · simp
  · intro i h1 h2
    simp only [List.getElem_map, List.getElem_range]
    exact List.getD_eq_getElem l 0 h2

/-- The four bytes at the returned write position hold the payload length. -/
theorem lenPrefix_after_write (g : Nat → Nat) (buffer : List Nat) (writePos : Nat)
    (hlen : buffer.length < 4294967296) :
    readLE32 (writeBytes (writeBytes g (leBytes32 (buffer.length % 4294967296)) writePos)
      buffer (writePos + 4)) writePos = buffer.length := by
  have hbyte : ∀ q, writePos ≤ q → q < writePos + 4 →
      writeBytes (writeBytes g (leBytes32 (buffer.length % 4294967296)) writePos)
        buffer (writePos + 4) q =
      (leBytes32 (buffer.length % 4294967296)).getD (q - writePos) 0 := by
    intro q hq1 hq2
    unfold writeBytes leBytes32
    simp only [List.length_cons, List.length_nil]
    rw [if_neg (by omega), if_pos (by constructor <;> omega)]
  unfold readLE32
  rw [hbyte writePos (by omega) (by omega),
      hbyte (writePos + 1) (by omega) (by omega),
      hbyte (writePos + 2) (by omega) (by omega),
      hbyte (writePos + 3) (by omega) (by omega)]
  have e0 : writePos - writePos = 0 := by omega
  have e1 : writePos + 1 - writePos = 1 := by omega
  have e2 : writePos + 2 - writePos = 2 := by omega
  have e3 : writePos + 3 - writePos = 3 := by omega
  rw [e0, e1, e2, e3]
  unfold leBytes32
  simp only [List.getD_cons_zero, List.getD_cons_succ]
  omega

/-- The bytes following the 4-byte length prefix are the payload. -/
theorem payload_after_write (g : Nat → Nat) (buffer : List Nat) (writePos : Nat)
    (i : Nat) (hi : i < buffer.length) :
    writeBytes (writeBytes g (leBytes32 (buffer.length % 4294967296)) writePos)
      buffer (writePos + 4) (writePos + 4 + i) = buffer.getD i 0 := by
  unfold writeBytes
  rw [if_pos (by constructor <;> omega)]
  congr 1
  omega

/-- Reading a pointer whose file holds a length prefix at the pointed
position followed by the payload recovers the payload. -/
theorem read_of_file_eq (fs' : FlatFileSet) (fp : FilePtr) (buffer : List Nat)
    (g : Nat → Nat) (sz : Nat)
    (hfile : fs'.files fp.file_number =
      { size := sz,
        bytes := writeBytes (writeBytes g (leBytes32 (buffer.length % 4294967296))
                   fp.file_pos) buffer (fp.file_pos + 4) })
    (hlen : buffer.length < 4294967296) :
    fs'.read fp = buffer := by
  unfold FlatFileSet.read
  dsimp only
  rw [hfile]
  dsimp only
  rw [lenPrefix_after_write g buffer fp.file_pos hlen]
  unfold FlatFile.get_bytes
  dsimp only
  calc (List.range buffer.length).map
        (fun i => writeBytes
          (writeBytes g (leBytes32 (buffer.length % 4294967296)) fp.file_pos)
          buffer (fp.file_pos + 4) (fp.file_pos + 4 + i))
      = (List.range buffer.length).map (fun i => buffer.getD i 0) := by
        apply List.map_congr_left
        intro i hi
        exact payload_after_write g buffer fp.file_pos i (by simpa using hi)
    _ = buffer := range_map_getD buffer

theorem setFile_files_self (fs : FlatFileSet) (n : Int) (f : FlatFile) :
    (fs.setFile n f).files n = f := by
  simp [FlatFileSet.setFile]

theorem create_next_last (fs : FlatFileSet) :
    fs.create_next_file.last_file = fs.last_file := rfl

/-- The no-rollover branch of `write` in terms of the file it produces. -/
theorem writeNoRoll_spec (y : FlatFileSet) (buffer : List Nat) :
    y.writeNoRoll buffer =
      (FilePtr.new (y.last_file - 1) ((y.files (y.last_file - 1)).get_size),
       y.setFile (y.last_file - 1)
         { size := ((y.files (y.last_file - 1)).get_size + 4 +
                     buffer.length % 4294967296) % 4294967296,
           bytes := writeBytes
             (writeBytes (y.files (y.last_file - 1)).bytes
               (leBytes32 (buffer.length % 4294967296))
               ((y.files (y.last_file - 1)).get_size)) buffer
             ((y.files (y.last_file - 1)).get_size + 4) }) := by
  simp only [FlatFileSet.writeNoRoll, FlatFile.put_u32, FlatFile.put_bytes,
    FlatFile.put_size]

theorem writeAux_step_eq (fuel : Nat) (fs0 : FlatFileSet) (buffer : List Nat)
    (hc : fs0.first_file = fs0.last_file) :
    FlatFileSet.writeAux (fuel + 1) fs0 buffer =
      (let fsA := FlatFileSet.create_next_file { fs0 with last_file := fs0.last_file + 1 }
       if fsA.max_size ≤ (fsA.files (fsA.last_file - 1)).get_size then
         FlatFileSet.writeAux fuel
           (FlatFileSet.create_next_file { fsA with last_file := fsA.last_file + 1 }) buffer
       else some (fsA.writeNoRoll buffer)) := by
  simp only [FlatFileSet.writeAux, if_pos hc]

theorem writeAux_step_ne (fuel : Nat) (fs0 : FlatFileSet) (buffer : List Nat)
    (hc : ¬ fs0.first_file = fs0.last_file) :
    FlatFileSet.writeAux (fuel + 1) fs0 buffer =
      (if fs0.max_size ≤ (fs0.files (fs0.last_file - 1)).get_size then
         FlatFileSet.writeAux fuel
           (FlatFileSet.create_next_file { fs0 with last_file := fs0.last_file + 1 }) buffer
       else some (fs0.writeNoRoll buffer)) := by
  simp only [FlatFileSet.writeAux, if_neg hc]

/-- What `FlatFileSet::write` does: it returns a pointer naming the tail
file and the position of the 4-byte length prefix, and the pointed file
holds the little-endian length at that position followed by the payload. -/
theorem write_spec (fs : FlatFileSet) (buffer : List Nat)
    (hmax1 : 16 < fs.max_size) (hmax2 : fs.max_size ≤ 4294967296)
    (hlen : buffer.length < 4294967296)
    (hff : fs.first_file ≤ fs.last_file)
    (hlo : -32767 ≤ fs.last_file) (hhi : fs.last_file ≤ 32767) :
    ∃ fileno writePos fs', fs.write buffer = some (FilePtr.new fileno writePos, fs') ∧
      -32768 ≤ fileno ∧ fileno ≤ 32767 ∧ writePos < 4294967296 ∧
      ∃ g sz, fs'.files fileno =
        { size := sz,
          bytes := writeBytes (writeBytes g (leBytes32 (buffer.length % 4294967296))
                     writePos) buffer (writePos + 4) } := by
  unfold FlatFileSet.write
  rw [show (2:Nat) = 1 + 1 from rfl]
  by_cases hc : fs.first_file = fs.last_file
  · rw [writeAux_step_eq 1 fs buffer hc]
    simp only [create_next_last, FlatFileSet.create_next_file, FlatFileSet.setFile,
      eq_self_iff_true, if_true, FlatFile.get_size]
    rw [if_neg (by omega), writeNoRoll_spec]
    refine ⟨_, _, _, rfl, ?_, ?_, ?_, _, _, setFile_files_self _ _ _⟩
    · dsimp only; omega
    · dsimp only; omega
    · simp only [FlatFile.get_size, eq_self_iff_true, if_true]
      omega
  · rw [writeAux_step_ne 1 fs buffer hc]
    by_cases hfull : fs.max_size ≤ (fs.files (fs.last_file - 1)).get_size
    · rw [if_pos hfull, writeAux_step_ne 0 _ buffer (by
        simp only [FlatFileSet.create_next_file, FlatFileSet.setFile]
        omega)]
      simp only [create_next_last, FlatFileSet.create_next_file, FlatFileSet.setFile,
        eq_self_iff_true, if_true, FlatFile.get_size]
      rw [if_neg (by omega), writeNoRoll_spec]
      refine ⟨_, _, _, rfl, ?_, ?_, ?_, _, _, setFile_files_self _ _ _⟩
      · dsimp only; omega
      · dsimp only; omega
      · simp only [FlatFile.get_size, eq_self_iff_true, if_true]
        omega
    · rw [if_neg hfull, writeNoRoll_spec]
      exact ⟨_, _, _, rfl, by omega, by omega, by omega, _, _,
        setFile_files_self _ _ _⟩

/-- Claim C3: for every byte slice b, if `fp = write(b)` then `read(fp)`
returns a slice equal to b — write stores a 4-byte little-endian length
followed by the payload, read recovers the payload via that length.  The
hypotheses bound the machine integers of the embedding: the payload length
and `max_size` fit in a `u32`, `max_size` exceeds the 16-byte header so a
fresh file has room, and the file numbers of the set are valid `i16`
values with `first_file ≤ last_file` as the directory scan establishes. -/
theorem write_read_roundtrip (fs : FlatFileSet) (buffer : List Nat)
    (hmax1 : 16 < fs.max_size) (hmax2 : fs.max_size ≤ 4294967296)
    (hlen : buffer.length < 4294967296)
    (hff : fs.first_file ≤ fs.last_file)
    (hlo : -32767 ≤ fs.last_file) (hhi : fs.last_file ≤ 32767) :
    ∃ fp fs', fs.write buffer = some (fp, fs') ∧ fs'.read fp = buffer := by
  obtain ⟨fileno, wp, fs', heq, hb1, hb2, hb3, g, sz, hfile⟩ :=
    write_spec fs buffer hmax1 hmax2 hlen hff hlo hhi
  refine ⟨FilePtr.new fileno wp, fs', heq, ?_⟩
  apply read_of_file_eq fs' _ buffer g sz ?_ hlen
  rw [FilePtr.file_number_new fileno wp hb1 hb2, FilePtr.file_pos_new fileno wp hb3]
  exact hfile

/-- Witness for C3: the unit test's write of `[1, 0, 0, 0]` into a fresh
fileset with `start_size` 1000 and `max_size` 900. -/
theorem write_read_roundtrip_witness :
    ∃ fp fs', (FlatFileSet.empty 1000 900).write [1, 0, 0, 0] = some (fp, fs') ∧
      fs'.read fp = [1, 0, 0, 0] :=
  write_read_roundtrip (FlatFileSet.empty 1000 900) [1, 0, 0, 0]
    (by decide) (by decide) (by decide) (by decide) (by decide) (by decide)

/-- Counterexample to C4 as stated: writing `[7, 8, 9]` into a fresh
fileset returns a pointer with file position 16, which is where the 4-byte
length prefix was stored (its first byte there is the length 3); the first
payload byte 7 sits at position 20 = 16 + 4, so the pointer addresses the
length prefix and not the first byte of the payload. -/
theorem write_ptr_counterexample :
    ((FlatFileSet.empty 1000 900).write [7, 8, 9]).map
        (fun p => (p.1.file_pos,
                   (p.2.files 0).bytes p.1.file_pos,
                   (p.2.files 0).bytes (p.1.file_pos + 4))) =
      some (16, 3, 7) ∧ (16 : Nat) ≠ 16 + 4 :=
  ⟨rfl, by decide⟩

/-- Claim C4 (amended): the FilePtr returned by `write` addresses the
4-byte length prefix, not the payload: the pointed file holds the
little-endian payload length at the pointer's file position and the payload
itself starting 4 bytes later (`read` compensates by reading the length at
`file_pos` and the payload at `file_pos + 4`). -/
theorem write_ptr_amended (fs : FlatFileSet) (buffer : List Nat)
    (hmax1 : 16 < fs.max_size) (hmax2 : fs.max_size ≤ 4294967296)
    (hlen : buffer.length < 4294967296)
    (hff : fs.first_file ≤ fs.last_file)
    (hlo : -32767 ≤ fs.last_file) (hhi : fs.last_file ≤ 32767) :
    ∃ fp fs', fs.write buffer = some (fp, fs') ∧
      readLE32 (fs'.files fp.file_number).bytes fp.file_pos = buffer.length ∧
      ∀ i, i < buffer.length →
        (fs'.files fp.file_number).bytes (fp.file_pos + 4 + i) = buffer.getD i 0 := by
  obtain ⟨fileno, wp, fs', heq, hb1, hb2, hb3, g, sz, hfile⟩ :=
    write_spec fs buffer hmax1 hmax2 hlen hff hlo hhi
  refine ⟨FilePtr.new fileno wp, fs', heq, ?_, ?_⟩
  · rw [FilePtr.file_number_new fileno wp hb1 hb2,
        FilePtr.file_pos_new fileno wp hb3, hfile]
    exact lenPrefix_after_write g buffer wp hlen
  · intro i hi
    rw [FilePtr.file_number_new fileno wp hb1 hb2,
        FilePtr.file_pos_new fileno wp hb3, hfile]
    exact payload_after_write g buffer wp i hi

/-- Witness for the amended C4 at the write of `[7, 8, 9]` into a fresh
fileset. -/
theorem write_ptr_amended_witness :
    ∃ fp fs', (FlatFileSet.empty 1000 900).write [7, 8, 9] = some (fp, fs') ∧
      readLE32 (fs'.files fp.file_number).bytes fp.file_pos = 3 ∧
      ∀ i, i < ([7, 8, 9] : List Nat).length →
        (fs'.files fp.file_number).bytes (fp.file_pos + 4 + i) =
          ([7, 8, 9] : List Nat).getD i 0 :=
  write_ptr_amended (FlatFileSet.empty 1000 900) [7, 8, 9]
    (by decide) (by decide) (by decide) (by decide) (by decide) (by decide)

theorem isPrefixOf_append_self : ∀ (l t : List Char), l.isPrefixOf (l ++ t) = true := by
  intro l t
  induction l with
  | nil => simp [List.isPrefixOf]
  | cons a as ih => simp [List.isPrefixOf, ih]

theorem char_to_hex_hexDigitChar {d : Nat} (h : d < 16) :
    char_to_hex (hexDigitChar d) = some d := by
  interval_cases d <;> rfl

/-- Claim C7: for every file number n in [-32768, 32767], the produced
filename is the prefix followed by the 4 lowercase hex digits of n's 16-bit
two's-complement pattern in big-endian order, and parsing that filename
yields n again. -/
theorem filename_fileno_roundtrip (pfx : List Char) (n : Int)
    (h1 : -32768 ≤ n) (h2 : n ≤ 32767) :
    fileno_to_filename pfx n = pfx ++ hexSuffixBE (toNat16 n) ∧
    filename_to_fileno pfx (fileno_to_filename pfx n) = some n := by
  have hu : toNat16 n < 65536 := by unfold toNat16; omega
  have hsuffix : fileno_to_filename pfx n = pfx ++ hexSuffixBE (toNat16 n) := by
    unfold fileno_to_filename hexSuffixBE format02x
    have e1 : toNat16 n / 256 / 16 = toNat16 n / 4096 % 16 := by omega
    have e3 : toNat16 n % 256 / 16 = toNat16 n / 16 % 16 := by omega
    have e4 : toNat16 n % 256 % 16 = toNat16 n % 16 := by omega
    rw [e1, e3, e4]
    simp
  refine ⟨hsuffix, ?_⟩
  rw [hsuffix]
  have g0 : (pfx ++ hexSuffixBE (toNat16 n)).getD pfx.length ' ' =
      hexDigitChar (toNat16 n / 4096 % 16) := by
    rw [List.getD_append_right _ _ _ _ (le_refl _)]
    simp [hexSuffixBE]
  have g1 : (pfx ++ hexSuffixBE (toNat16 n)).getD (pfx.length + 1) ' ' =
      hexDigitChar (toNat16 n / 256 % 16) := by
    rw [List.getD_append_right _ _ _ _ (by omega)]
    simp [hexSuffixBE]
  have g2 : (pfx ++ hexSuffixBE (toNat16 n)).getD (pfx.length + 2) ' ' =
      hexDigitChar (toNat16 n / 16 % 16) := by
    rw [List.getD_append_right _ _ _ _ (by omega)]
    simp [hexSuffixBE]
  have g3 : (pfx ++ hexSuffixBE (toNat16 n)).getD (pfx.length + 3) ' ' =
      hexDigitChar (toNat16 n % 16) := by
    rw [List.getD_append_right _ _ _ _ (by omega)]
    simp [hexSuffixBE]
  have hlen : (pfx ++ hexSuffixBE (toNat16 n)).length = pfx.length + 4 := by
    simp [hexSuffixBE]
  unfold filename_to_fileno
  rw [isPrefixOf_append_self]
  simp only [not_true, Bool.not_eq_true, if_false, hlen, g0, g1, g2, g3,
    char_to_hex_hexDigitChar (Nat.mod_lt _ (by omega)),
    ne_eq, not_true_eq_false, if_neg]
  have hsum : toNat16 n / 4096 % 16 * 4096 + toNat16 n / 256 % 16 * 256 +
      toNat16 n / 16 % 16 * 16 + toNat16 n % 16 = toNat16 n := by omega
  rw [hsum]
  have : toI16 (toNat16 n) = n := by
    unfold toI16 toNat16
    split <;> omega
  rw [this]

/-- Witness for C7 at the prefix `tx-` and file number -2 (the Rust unit
test's `tx-fffe` case). -/
theorem filename_fileno_roundtrip_witness :
    fileno_to_filename [ 't', 'x', '-' ] (-2) =
      [ 't', 'x', '-' ] ++ hexSuffixBE (toNat16 (-2)) ∧
    filename_to_fileno [ 't', 'x', '-' ]
      (fileno_to_filename [ 't', 'x', '-' ] (-2)) = some (-2) :=
  filename_fileno_roundtrip [ 't', 'x', '-' ] (-2) (by decide) (by decide)

/-- Claim C5: `store_block(h, ps)` appends exactly `ps.length + 2` records
as one contiguous run — the existing records are untouched, a
guard-blockheader record comes first, then one record per element of `ps`
in order, then a blockheader record — and the returned BlockPtr's start is
the first (guard) record and its end the last (blockheader) record. -/
theorem store_block_spec (st : SpentTree) (h : ContentPtr) (ps : List ContentPtr) :
    (st.store_block h ps).2.records.length = st.records.length + (ps.length + 2) ∧
    (st.store_block h ps).2.records.take st.records.length = st.records ∧
    (st.store_block h ps).1.start = st.records.length ∧
    (st.store_block h ps).1.end_ = (st.store_block h ps).1.start + ps.length + 1 ∧
    (st.store_block h ps).2.records.get? (st.store_block h ps).1.start =
      some (Record.new h.to_guardblock) ∧
    (∀ i, i < ps.length →
      (st.store_block h ps).2.records.get? ((st.store_block h ps).1.start + 1 + i) =
        (ps.get? i).map Record.new) ∧
    (st.store_block h ps).2.records.get? (st.store_block h ps).1.end_ =
      some (Record.new h.to_block) := by
  unfold SpentTree.store_block SpentTree.create_block
  dsimp only
  refine ⟨by simp, ?_, rfl, by simp +arith, ?_, ?_, ?_⟩
  · rw [List.take_left]
  · rw [List.get?_append_right (le_refl _)]
    simp
  · intro i hi
    rw [show st.records.length + 1 + i = st.records.length + (1 + i) by omega,
        List.get?_append_right (by omega)]
    simp only [Nat.add_sub_cancel_left]
    rw [show (1 + i) = i + 1 by omega]
    simp only [List.get?_cons_succ]
    rw [List.get?_append (by simpa using hi)]
    simp [List.get?_map]
  · have hlen : (Record.new h.to_guardblock ::
        (ps.map Record.new ++ [Record.new h.to_block])).length = ps.length + 2 := by
      simp
    rw [hlen, List.get?_append_right (by omega)]
    simp only [Nat.add_sub_cancel_left]
    rw [show ps.length + 2 - 1 = ps.length + 1 by omega]
    simp only [List.get?_cons_succ]
    rw [List.get?_append_right (by simp)]
    simp

/-- Witness for C5: storing block 1 of the spent-tree unit test (one
transaction) in an empty spent tree; the record after the guard is the
transaction record. -/
theorem store_block_spec_witness :
    (SpentTree.store_block ⟨[]⟩ (.transaction 1) [.transaction 2]).2.records.get?
        ((SpentTree.store_block ⟨[]⟩ (.transaction 1) [.transaction 2]).1.start + 1 + 0) =
      (([ContentPtr.transaction 2] : List ContentPtr).get? 0).map Record.new :=
  (store_block_spec ⟨[]⟩ (.transaction 1) [.transaction 2]).2.2.2.2.2.1 0 (by decide)

theorem get?_isSome_lt {l : List Record} {i : Nat} {b : Record}
    (h : l.get? i = some b) : i < l.length := by
  by_contra hn
  rw [List.get?_eq_none.mpr (by omega)] at h
  exact Option.noConfusion h

theorem findEndAux_spec : ∀ (fuel : Nat) (records : List Record) (cur j : Nat)
    (rj : Record),
    records.get? j = some rj →
    rj.ptr.is_blockheader = true →
    cur < j →
    j - cur ≤ fuel →
    (∀ i, cur < i → i < j →
      ∃ ri, records.get? i = some ri ∧ ri.ptr.is_blockheader = false) →
    ∃ records', findEndAux fuel records cur = some (j, records') ∧
      (∀ q, q ≤ cur ∨ j < q → records'.get? q = records.get? q) ∧
      (∀ q rq, cur < q → q < j → records.get? q = some rq →
          records'.get? q = some { rq with skips := List.replicate SKIP_FIELDS (-1) }) ∧
      records'.get? j = some { rj with previous := some (j - 1) } := by
  intro fuel
  induction fuel with
  | zero => intro records cur j rj hj hhdr hlt hfuel hmid; omega
  | succ fuel ih =>
    intro records cur j rj hj hhdr hlt hfuel hmid
    by_cases hstep : cur + 1 = j
    · subst hstep
      refine ⟨records.set (cur + 1) { rj with previous := some (cur + 1 - 1) },
        ?_, ?_, ?_, ?_⟩
      · unfold findEndAux
        dsimp only
        rw [hj]
        dsimp only
        rw [if_pos hhdr]
      · intro q hq
        exact List.get?_set_ne _ _ (by omega)
      · intro q rq h1 h2 h3
        omega
      · exact List.get?_set_eq_of_lt _ (get?_isSome_lt hj)
    · obtain ⟨rm, hrm, hrmh⟩ := hmid (cur + 1) (by omega) (by omega)
      obtain ⟨records', hrun, hunch, hclear, hend⟩ :=
        ih (records.set (cur + 1) { rm with skips := List.replicate SKIP_FIELDS (-1) })
          (cur + 1) j rj
          (by rw [List.get?_set_ne _ _ (by omega)]; exact hj)
          hhdr (by omega) (by omega)
          (by
            intro i hi1 hi2
            obtain ⟨ri, hri, hrih⟩ := hmid i (by omega) hi2
            exact ⟨ri, by rw [List.get?_set_ne _ _ (by omega)]; exact hri, hrih⟩)
      refine ⟨records', ?_, ?_, ?_, hend⟩
      · unfold findEndAux
        dsimp only
        rw [hrm]
        dsimp only
        rw [if_neg (by simp [hrmh])]
        exact hrun
      · intro q hq
        rw [hunch q (by omega), List.get?_set_ne _ _ (by omega)]
      · intro q rq h1 h2 h3
        by_cases hq : q = cur + 1
        · subst hq
          rw [hunch (cur + 1) (by omega), List.get?_set_eq_of_lt _ (get?_isSome_lt hrm)]
          rw [hrm] at h3
          cases h3
          rfl
        · exact hclear q rq (by omega) h2
            (by rw [List.get?_set_ne _ _ (by omega)]; exact h3)

/-- Claim C9: `find_end(start)` walks forward one record at a time from the
start record and returns the pointer of the first blockheader-kind record
it encounters; every non-blockheader record passed through on the way gets
all `SKIP_FIELDS` skip entries reset to the sentinel -1 (records before the
start and past the found header are untouched; the found header's
`previous` is set to the record before it, as the source also does). -/
theorem find_end_walks (records : List Record) (start j : Nat) (rj : Record)
    (hj : records.get? j = some rj)
    (hhdr : rj.ptr.is_blockheader = true)
    (hstart : start < j)
    (hmid : ∀ i, start < i → i < j →
      ∃ ri, records.get? i = some ri ∧ ri.ptr.is_blockheader = false) :
    ∃ records', SpentTree.find_end ⟨records⟩ start = some (j, ⟨records'⟩) ∧
      (∀ q, q ≤ start ∨ j < q → records'.get? q = records.get? q) ∧
      (∀ q rq, start < q → q < j → records.get? q = some rq →
          records'.get? q = some { rq with skips := List.replicate SKIP_FIELDS (-1) }) ∧
      records'.get? j = some { rj with previous := some (j - 1) } := by
  obtain ⟨records', hrun, hunch, hclear, hend⟩ :=
    findEndAux_spec records.length records start j rj hj hhdr hstart
      (by have := get?_isSome_lt hj; omega) hmid
  refine ⟨records', ?_, hunch, hclear, hend⟩
  unfold SpentTree.find_end
  rw [hrun]
  rfl

/-- Witness for C9 on the stored block 1 of the unit test: the walk from
the guard at 0 finds the blockheader at 2 and clears the skips of the
transaction record at 1. -/
theorem find_end_walks_witness :
    ∃ records', SpentTree.find_end ⟨[Record.new (.guardHeader 1),
        Record.new (.transaction 2), Record.new (.header 1)]⟩ 0 =
        some (2, ⟨records'⟩) ∧
      (∀ q, q ≤ 0 ∨ 2 < q → records'.get? q =
        ([Record.new (.guardHeader 1), Record.new (.transaction 2),
          Record.new (.header 1)] : List Record).get? q) ∧
      (∀ q rq, 0 < q → q < 2 →
        ([Record.new (.guardHeader 1), Record.new (.transaction 2),
          Record.new (.header 1)] : List Record).get? q = some rq →
        records'.get? q = some { rq with skips := List.replicate SKIP_FIELDS (-1) }) ∧
      records'.get? 2 = some { Record.new (.header 1) with previous := some (2 - 1) } :=
  find_end_walks [Record.new (.guardHeader 1), Record.new (.transaction 2),
      Record.new (.header 1)] 0 2 (Record.new (.header 1)) rfl rfl (by decide)
    (by
      intro i h1 h2
      interval_cases i
      exact ⟨Record.new (.transaction 2), rfl, rfl⟩)

theorem setPrev_length (l : List Record) (i : Nat) (v : Option Nat) :
    (setPrev l i v).length = l.length := by
  unfold setPrev
  cases h : l.get? i <;> simp

theorem setPrev_get_self {l : List Record} {i : Nat} {r : Record} (v : Option Nat)
    (h : l.get? i = some r) :
    (setPrev l i v).get? i = some { r with previous := v } := by
  unfold setPrev
  rw [h]
  exact List.get?_set_eq_of_lt _ (get?_isSome_lt h)

theorem setPrev_get_ne (l : List Record) (i : Nat) (v : Option Nat) {q : Nat}
    (h : q ≠ i) :
    (setPrev l i v).get? q = l.get? q := by
  unfold setPrev
  cases hg : l.get? i
  · rfl
  · exact List.get?_set_ne _ _ (by omega)

theorem countInterior_spec : ∀ (n fuel : Nat) (records : List Record) (cur : Nat),
    (∀ k, k < n → ∃ r, records.get? (cur + 1 + k) = some r ∧
      r.ptr.is_blockheader = false) →
    (∃ rh, records.get? (cur + 1 + n) = some rh ∧ rh.ptr.is_blockheader = true) →
    n < fuel →
    countInterior fuel records cur = some n := by
  intro n
  induction n with
  | zero =>
    intro fuel records cur hmid hend hfuel
    obtain ⟨rh, hrh, hh⟩ := hend
    obtain ⟨fuel, rfl⟩ : ∃ f, fuel = f + 1 := ⟨fuel - 1, by omega⟩
    unfold countInterior
    rw [show cur + 1 + 0 = cur + 1 by omega] at hrh
    rw [hrh]
    dsimp only
    rw [if_pos hh]
  | succ n ih =>
    intro fuel records cur hmid hend hfuel
    obtain ⟨fuel, rfl⟩ : ∃ f, fuel = f + 1 := ⟨fuel - 1, by omega⟩
    obtain ⟨rm, hrm, hmh⟩ := hmid 0 (by omega)
    rw [show cur + 1 + 0 = cur + 1 by omega] at hrm
    unfold countInterior
    rw [hrm]
    dsimp only
    rw [if_neg (by simp [hmh])]
    rw [ih fuel records (cur + 1)
      (by intro k hk; have := hmid (k + 1) (by omega)
          rwa [show cur + 1 + (k + 1) = cur + 1 + 1 + k by omega] at this)
      (by obtain ⟨rh, hrh, hh⟩ := hend
          exact ⟨rh, by rwa [show cur + 1 + 1 + n = cur + 1 + (n + 1) by omega], hh⟩)
      (by omega)]
    rfl

theorem setPrevMinusOne_length : ∀ (n : Nat) (l : List Record) (start : Nat),
    (setPrevMinusOne l start n).length = l.length := by
  intro n
  induction n with
  | zero => intro l start; rfl
  | succ n ih =>
    intro l start
    unfold setPrevMinusOne
    rw [ih, setPrev_length]

theorem setPrevMinusOne_get_out : ∀ (n : Nat) (l : List Record) (start q : Nat),
    (q < start ∨ start + n ≤ q) →
    (setPrevMinusOne l start n).get? q = l.get? q := by
  intro n
  induction n with
  | zero => intro l start q hq; rfl
  | succ n ih =>
    intro l start q hq
    unfold setPrevMinusOne
    rw [ih _ _ _ (by omega), setPrev_get_ne _ _ _ (by omega)]

theorem setPrevMinusOne_get_in : ∀ (n : Nat) (l : List Record) (start q : Nat)
    (r : Record), start ≤ q → q < start + n → l.get? q = some r →
    (setPrevMinusOne l start n).get? q = some { r with previous := some (q - 1) } := by
  intro n
  induction n with
  | zero => intro l start q r h1 h2; omega
  | succ n ih =>
    intro l start q r h1 h2 hq
    unfold setPrevMinusOne
    by_cases he : q = start
    · subst he
      rw [setPrevMinusOne_get_out n _ _ _ (by omega)]
      exact setPrev_get_self _ hq
    · exact ih _ _ _ r (by omega) (by omega)
        (by rw [setPrev_get_ne _ _ _ (by omega)]; exact hq)

/-- What a successful `connect_block` run does to the `previous` fields of
the connected block, given the block layout at `s` (guard at `s`, `n`
non-header records, then the end header). -/
theorem connect_block_ok_spec (records : List Record) (pe s n : Nat)
    (hmid : ∀ k, k < n → ∃ r, records.get? (s + 1 + k) = some r ∧
      r.ptr.is_blockheader = false)
    (hend : ∃ rh, records.get? (s + 1 + n) = some rh ∧ rh.ptr.is_blockheader = true)
    (hg : ∃ rg, records.get? s = some rg) :
    ∀ endp st2, SpentTree.connect_block ⟨records⟩ pe s = some (.ok endp, st2) →
      endp = s + 1 + n ∧
      (st2.records.get? s).map Record.previous = some (some pe) ∧
      ∀ i, s < i → i < endp →
        (st2.records.get? i).map Record.previous = some (some (i - 1)) := by
  intro endp st2 hconn
  obtain ⟨rg, hrg⟩ := hg
  have hlen : s + 1 + n < records.length := by
    obtain ⟨rh, hrh, _⟩ := hend
    exact get?_isSome_lt hrh
  have hmid1 : ∀ k, k < n → ∃ r,
      (setPrev records s (some pe)).get? (s + 1 + k) = some r ∧
      r.ptr.is_blockheader = false := by
    intro k hk
    obtain ⟨r, hr, hrh⟩ := hmid k hk
    exact ⟨r, by rw [setPrev_get_ne _ _ _ (by omega)]; exact hr, hrh⟩
  have hend1 : ∃ rh, (setPrev records s (some pe)).get? (s + 1 + n) = some rh ∧
      rh.ptr.is_blockheader = true := by
    obtain ⟨rh, hrh, hh⟩ := hend
    exact ⟨rh, by rw [setPrev_get_ne _ _ _ (by omega)]; exact hrh, hh⟩
  have hci : countInterior (setPrev records s (some pe)).length
      (setPrev records s (some pe)) s = some n :=
    countInterior_spec n _ _ s hmid1 hend1 (by rw [setPrev_length]; omega)
  unfold SpentTree.connect_block at hconn
  dsimp only at hconn
  rw [hci] at hconn
  dsimp only at hconn
  rcases hscan : seekAndSetInputs
      (setPrevMinusOne (setPrev records s (some pe)) (s + 1) n)
      (setPrevMinusOne (setPrev records s (some pe)) (s + 1) n).length
      (s + 1) n with _ | ex
  · rw [hscan] at hconn
    exact Option.noConfusion hconn
  · rcases ex with e | u
    · rw [hscan] at hconn
      dsimp only at hconn
      rw [Option.some.injEq, Prod.mk.injEq] at hconn
      exact Except.noConfusion hconn.1
    · rw [hscan] at hconn
      dsimp only at hconn
      rw [Option.some.injEq, Prod.mk.injEq] at hconn
      obtain ⟨hep, hst⟩ := hconn
      have hep2 : endp = s + 1 + n := by
        cases hep
        rfl
      subst hep2
      subst hst
      refine ⟨rfl, ?_, ?_⟩
      · rw [show (⟨setPrev (setPrev (setPrevMinusOne (setPrev records s (some pe))
          (s + 1) n) (s + 1 + n) (some (s + 1 + n - 1))) s (some pe)⟩ : SpentTree).records
          = setPrev (setPrev (setPrevMinusOne (setPrev records s (some pe))
          (s + 1) n) (s + 1 + n) (some (s + 1 + n - 1))) s (some pe) from rfl]
        have h3 : (setPrev (setPrevMinusOne (setPrev records s (some pe))
            (s + 1) n) (s + 1 + n) (some (s + 1 + n - 1))).get? s =
            some { rg with previous := some pe } := by
          rw [setPrev_get_ne _ _ _ (by omega),
              setPrevMinusOne_get_out n _ _ _ (by omega)]
          exact setPrev_get_self _ hrg
        rw [setPrev_get_self _ h3]
        rfl
      · intro i hi1 hi2
        obtain ⟨r, hr, _⟩ := hmid (i - (s + 1)) (by omega)
        rw [show s + 1 + (i - (s + 1)) = i by omega] at hr
        have h1 : (setPrev records s (some pe)).get? i = some r := by
          rw [setPrev_get_ne _ _ _ (by omega)]; exact hr
        have h2 : (setPrevMinusOne (setPrev records s (some pe)) (s + 1) n).get? i =
            some { r with previous := some (i - 1) } :=
          setPrevMinusOne_get_in n _ _ _ r (by omega) (by omega) h1
        have h3 : (setPrev (setPrevMinusOne (setPrev records s (some pe))
            (s + 1) n) (s + 1 + n) (some (s + 1 + n - 1))).get? i =
            some { r with previous := some (i - 1) } := by
          rw [setPrev_get_ne _ _ _ (by omega)]; exact h2
        have h4 := setPrev_get_ne (setPrev (setPrevMinusOne (setPrev records s (some pe))
            (s + 1) n) (s + 1 + n) (some (s + 1 + n - 1))) s (some pe) (q := i) (by omega)
        rw [show (⟨setPrev (setPrev (setPrevMinusOne (setPrev records s (some pe))
          (s + 1) n) (s + 1 + n) (some (s + 1 + n - 1))) s (some pe)⟩ : SpentTree).records
          = setPrev (setPrev (setPrevMinusOne (setPrev records s (some pe))
          (s + 1) n) (s + 1 + n) (some (s + 1 + n - 1))) s (some pe) from rfl]
        rw [h4, h3]
        rfl

/-- Claim C6: a freshly stored block is orphan — its start-guard's
`previous` holds the sentinel — and after a successful
`connect_block(previous_end, start)` the start-guard's `previous` is the
connected parent's end record and every interior record's `previous` is the
immediately preceding record in the flat file. -/
theorem connect_block_previous (st : SpentTree) (h : ContentPtr) (ps : List ContentPtr)
    (previous_end : Nat)
    (hps : ∀ p ∈ ps, p.is_blockheader = false) :
    ((st.store_block h ps).2.records.get? (st.store_block h ps).1.start =
        some (Record.new h.to_guardblock) ∧
      (Record.new h.to_guardblock).previous = none) ∧
    ∀ endp st2,
      (st.store_block h ps).2.connect_block previous_end (st.store_block h ps).1.start =
        some (.ok endp, st2) →
      endp = (st.store_block h ps).1.end_ ∧
      (st2.records.get? (st.store_block h ps).1.start).map Record.previous =
        some (some previous_end) ∧
      ∀ i, (st.store_block h ps).1.start < i → i < endp →
        (st2.records.get? i).map Record.previous = some (some (i - 1)) := by
  have hstart : (st.store_block h ps).1.start = st.records.length := rfl
  have hrecords : (st.store_block h ps).2.records =
      st.records ++ (Record.new h.to_guardblock ::
        (ps.map Record.new ++ [Record.new h.to_block])) := rfl
  have hg : (st.store_block h ps).2.records.get? st.records.length =
      some (Record.new h.to_guardblock) := by
    rw [hrecords, List.get?_append_right (le_refl _)]
    simp
  have hmid : ∀ k, k < ps.length → (st.store_block h ps).2.records.get?
      (st.records.length + 1 + k) = (ps.get? k).map Record.new := by
    intro k hk
    rw [hrecords, show st.records.length + 1 + k = st.records.length + (1 + k) by omega,
        List.get?_append_right (by omega)]
    simp only [Nat.add_sub_cancel_left]
    rw [show (1 + k) = k + 1 by omega]
    simp only [List.get?_cons_succ]
    rw [List.get?_append (by simpa using hk)]
    simp [List.get?_map]
  have hendrec : (st.store_block h ps).2.records.get?
      (st.records.length + 1 + ps.length) = some (Record.new h.to_block) := by
    rw [hrecords,
        show st.records.length + 1 + ps.length = st.records.length + (1 + ps.length) by omega,
        List.get?_append_right (by omega)]
    simp only [Nat.add_sub_cancel_left]
    rw [show (1 + ps.length) = ps.length + 1 by omega]
    simp only [List.get?_cons_succ]
    rw [List.get?_append_right (by simp)]
    simp
  refine ⟨⟨by rw [hstart]; exact hg, rfl⟩, ?_⟩
  intro endp st2 hconn
  have hres := connect_block_ok_spec (st.store_block h ps).2.records previous_end
      st.records.length ps.length
      (by
        intro k hk
        have hm := hmid k hk
        rcases hget : ps.get? k with _ | p
        · exact absurd (List.get?_eq_none.mp hget) (by omega)
        · rw [hget] at hm
          refine ⟨Record.new p, hm, ?_⟩
          exact hps p (List.get?_mem hget))
      ⟨Record.new h.to_block, hendrec, rfl⟩
      ⟨Record.new h.to_guardblock, hg⟩
      endp st2 hconn
  obtain ⟨he, hprev, hint⟩ := hres
  have hend2 : (st.store_block h ps).1.end_ = st.records.length + 1 + ps.length := by
    unfold SpentTree.store_block SpentTree.create_block
    dsimp only
    simp +arith
  rw [hstart, hend2]
  exact ⟨by omega, hprev, hint⟩

/-- Witness for C6: block 99 (tx 100 spending output 0 of tx 2) stored on
the test state and connected onto block 1 — the guard at 11 points to the
parent end 2 and the interior record at 12 points to 11. -/
theorem connect_block_previous_witness :
    scnWConn.map Prod.fst = some (.ok 14) ∧
    (scnWSt2.records.get? 11).map Record.previous = some (some 2) ∧
    (scnWSt2.records.get? 12).map Record.previous = some (some 11) := by
  have hthm := connect_block_previous scnStA (.transaction 99)
      [.transaction 100, .output 2 0] 2 (by decide)
  have hc := hthm.2 14 scnWSt2 rfl
  exact ⟨rfl, hc.2.1, hc.2.2 12 (by decide) (by decide)⟩

theorem seekSpend_eq_scanOnBranch : ∀ (fuel : Nat) (records : List Record)
    (txpos outIdx j : Nat),
    seekSpend records txpos outIdx fuel j = scanOnBranch records txpos outIdx fuel j := by
  intro fuel
  induction fuel with
  | zero => intro records txpos outIdx j; rfl
  | succ fuel ih =>
    intro records txpos outIdx j
    unfold seekSpend scanOnBranch chainWalk
    cases hr : records.get? j
    · rfl
    · rename_i r
      dsimp only
      by_cases h1 : r.ptr = .transaction txpos
      · rw [if_pos h1]
        cases hp : r.previous <;>
          simp [List.find?, h1]
      · rw [if_neg h1]
        by_cases h2 : r.ptr = .output txpos outIdx
        · rw [if_pos h2]
          cases hp : r.previous <;>
            simp [List.find?, h1, h2]
        · rw [if_neg h2]
          cases hp : r.previous
          · simp [List.find?, h1, h2]
          · rename_i p
            dsimp only
            rw [ih records txpos outIdx p]
            unfold scanOnBranch
            simp [List.find?, h1, h2]

/-- Claim C1: the backward scan from an output record accepts exactly when
the first matching record on its branch is the spent transaction T, returns
`outputAlreadySpent` when it first reaches the same output (T, k), and
returns `outputNotFound` when the branch root's start-guard is reached
without encountering T (the `seekSpend` walk equals the declarative
first-match description `scanOnBranch`); consequently `connect_block`
reproduces the unit test: both forks of S2 connect Ok, connecting block 7
onto the 2a branch fails with `outputNotFound` (tx 6 is on the other
branch) while it connects Ok onto 2b, and connecting block 10 onto the 3b
branch fails with `outputAlreadySpent` (output 1 of tx 2 was consumed by tx
9 there) while it connects Ok onto 2b. -/
theorem seek_and_set_scan :
    (∀ (fuel : Nat) (records : List Record) (txpos outIdx j : Nat),
      seekSpend records txpos outIdx fuel j =
        scanOnBranch records txpos outIdx fuel j) ∧
    scnConn2a.map Prod.fst = some (.ok 6) ∧
    scnConn2b.map Prod.fst = some (.ok 10) ∧
    scnConn3bBad.map Prod.fst = some (.error .outputNotFound) ∧
    scnConn3bGood.map Prod.fst = some (.ok 16) ∧
    scnConn4aBad.map Prod.fst = some (.error .outputAlreadySpent) ∧
    scnConn4aGood.map Prod.fst = some (.ok 22) :=
  ⟨seekSpend_eq_scanOnBranch, rfl, rfl, rfl, rfl, rfl, rfl⟩

theorem setPrev_get_ptr (l : List Record) (i : Nat) (v : Option Nat) (q : Nat) :
    ((setPrev l i v).get? q).map Record.ptr = (l.get? q).map Record.ptr := by
  by_cases h : q = i
  · subst h
    unfold setPrev
    cases hg : l.get? q
    · dsimp only
      rw [hg]
    · rw [List.get?_set_eq_of_lt _ (get?_isSome_lt hg)]
      rfl
  · rw [setPrev_get_ne _ _ _ h]

theorem setPrevMinusOne_get_ptr : ∀ (n : Nat) (l : List Record) (start q : Nat),
    ((setPrevMinusOne l start n).get? q).map Record.ptr = (l.get? q).map Record.ptr := by
  intro n
  induction n with
  | zero => intro l start q; rfl
  | succ n ih =>
    intro l start q
    unfold setPrevMinusOne
    rw [ih, setPrev_get_ptr]

/-- `connect_block` only rewrites `previous` fields and skips: the record
count and every record's content pointer survive, also on the error path. -/
theorem connect_block_preserves (st : SpentTree) (pe ts : Nat)
    (r : Except SpendingError Nat) (st' : SpentTree)
    (h : SpentTree.connect_block st pe ts = some (r, st')) :
    st'.records.length = st.records.length ∧
    ∀ i, (st'.records.get? i).map Record.ptr = (st.records.get? i).map Record.ptr := by
  unfold SpentTree.connect_block at h
  dsimp only at h
  rcases hci : countInterior (setPrev st.records ts (some pe)).length
      (setPrev st.records ts (some pe)) ts with _ | bs
  · rw [hci] at h
    exact Option.noConfusion h
  · rw [hci] at h
    dsimp only at h
    rcases hscan : seekAndSetInputs
        (setPrevMinusOne (setPrev st.records ts (some pe)) (ts + 1) bs)
        (setPrevMinusOne (setPrev st.records ts (some pe)) (ts + 1) bs).length
        (ts + 1) bs with _ | ex
    · rw [hscan] at h
      exact Option.noConfusion h
    · rcases ex with e | u
      · rw [hscan] at h
        dsimp only at h
        rw [Option.some.injEq, Prod.mk.injEq] at h
        obtain ⟨-, h2⟩ := h
        subst h2
        refine ⟨?_, ?_⟩
        · show (setPrevMinusOne (setPrev st.records ts (some pe)) (ts + 1) bs).length
            = st.records.length
          rw [setPrevMinusOne_length, setPrev_length]
        · intro i
          show ((setPrevMinusOne (setPrev st.records ts (some pe)) (ts + 1) bs).get? i).map
              Record.ptr = (st.records.get? i).map Record.ptr
          rw [setPrevMinusOne_get_ptr, setPrev_get_ptr]
      · rw [hscan] at h
        dsimp only at h
        rw [Option.some.injEq, Prod.mk.injEq] at h
        obtain ⟨-, h2⟩ := h
        subst h2
        refine ⟨?_, ?_⟩
        · show (setPrev (setPrev (setPrevMinusOne (setPrev st.records ts (some pe))
            (ts + 1) bs) (ts + 1 + bs) (some (ts + 1 + bs - 1))) ts (some pe)).length
            = st.records.length
          rw [setPrev_length, setPrev_length, setPrevMinusOne_length, setPrev_length]
        · intro i
          show ((setPrev (setPrev (setPrevMinusOne (setPrev st.records ts (some pe))
            (ts + 1) bs) (ts + 1 + bs) (some (ts + 1 + bs - 1))) ts (some pe)).get? i).map
              Record.ptr = (st.records.get? i).map Record.ptr
          rw [setPrev_get_ptr, setPrev_get_ptr, setPrevMinusOne_get_ptr, setPrev_get_ptr]

/-- Claim C2: when the spent-tree connection of a (parent_end, child_start)
pair fails with a SpendingError, the orchestrator returns that error before
any `block_index.set` — the block-hash index is unchanged — and the block's
records remain in the flat file (same record count, same content pointers);
and a subsequent `connect_block` of the same stored block onto a different
parent on an alternate branch can still succeed, as the unit test's block 7
shows: its connection onto 2a fails with `outputNotFound`, after which its
connection onto 2b succeeds. -/
theorem spend_error_leaves_block_orphan :
    (∀ (rev : Store → Nat → Store) (fuel : Nat) (store : Store) (hash : Nat)
        (prev thisB : BlockPtr) (e : SpendingError) (st' : SpentTree),
      store.spentTree.connect_block prev.end_ thisB.start = some (.error e, st') →
      connectBlockOrch rev fuel store hash (some prev) thisB =
        some (.error e, { store with spentTree := st' }) ∧
      ({ store with spentTree := st' }).blockIndex = store.blockIndex ∧
      st'.records.length = store.spentTree.records.length ∧
      ∀ i, (st'.records.get? i).map Record.ptr =
        (store.spentTree.records.get? i).map Record.ptr) ∧
    scnConn3bBad.map Prod.fst = some (.error .outputNotFound) ∧
    scnConn3bGood.map Prod.fst = some (.ok 16) := by
  refine ⟨?_, rfl, rfl⟩
  intro rev fuel store hash prev thisB e st' h
  refine ⟨?_, rfl, ?_, ?_⟩
  · unfold connectBlockOrch
    dsimp only
    rw [h]
  · exact (connect_block_preserves store.spentTree prev.end_ thisB.start
      (.error e) st' h).1
  · exact (connect_block_preserves store.spentTree prev.end_ thisB.start
      (.error e) st' h).2

/-- Witness for C2: the failing connection of block 7 onto branch 2a, run
through the orchestrator on a store with an empty block-hash index. -/
theorem spend_error_leaves_block_orphan_witness :
    connectBlockOrch (fun s _ => s) 5 scnOrchStore 7 (some scnStore2a.1)
        scnStore3b.1 =
      some (.error .outputNotFound, { scnOrchStore with spentTree := scnStD }) ∧
    ({ scnOrchStore with spentTree := scnStD }).blockIndex =
      scnOrchStore.blockIndex :=
  ⟨(spend_error_leaves_block_orphan.1 (fun s _ => s) 5 scnOrchStore 7
      scnStore2a.1 scnStore3b.1 .outputNotFound scnStD rfl).1,
   (spend_error_leaves_block_orphan.1 (fun s _ => s) 5 scnOrchStore 7
      scnStore2a.1 scnStore3b.1 .outputNotFound scnStD rfl).2.1⟩

/-- Claim C8: adding a block whose hash is already bound to a concrete
(non-guard) pointer in the block-hash index is a no-op — `add_block`
returns before storing transactions, appending spent-tree records, or
touching the index. -/
theorem addBlock_duplicate_noop (genesisHash : Nat) (rev : Store → Nat → Store)
    (fuel : Nat) (store : Store) (b : ParsedBlock)
    (hex : blockExists store b.hash = true) :
    addBlock genesisHash rev fuel store b = some store := by
  unfold addBlock
  rw [if_pos hex]

/-- Witness for C8: re-adding a block with hash 5 to a store whose index
already binds 5 to a concrete pointer leaves the store untouched. -/
theorem addBlock_duplicate_noop_witness :
    addBlock 9 (fun s _ => s) 10 scnDupStore scnDupBlock = some scnDupStore :=
  addBlock_duplicate_noop 9 (fun s _ => s) 10 scnDupStore scnDupBlock (by decide)

/-- Claim C10: `header_add(db, H, h)` returns AlreadyExists and leaves the
database unchanged when H is present; returns Ok and writes exactly one new
DbHeader when H is absent but the parent hash is present; and returns
Orphan(prev_hash) leaving the database unchanged when neither applies. -/
theorem header_add_cases (db : Db) (hash : Nat) (header : Header) :
    (∀ p, db_header_get db hash = some p →
      header_add db hash header = (.AlreadyExists, db)) ∧
    (∀ parentPtr parent, db_header_get db hash = none →
      db_header_get db header.prevHash = some (parentPtr, parent) →
      header_add db hash header =
        (.Ok, List.append db [(hash, DbHeader.new parent parentPtr header)])) ∧
    (db_header_get db hash = none → db_header_get db header.prevHash = none →
      header_add db hash header = (.Orphan header.prevHash, db)) := by
  refine ⟨?_, ?_, ?_⟩
  · intro p hp
    unfold header_add
    rw [hp]
  · intro parentPtr parent h1 h2
    unfold header_add
    rw [h1, h2]
    rfl
  · intro h1 h2
    unfold header_add
    rw [h1, h2]

/-- Witness for C10: adding a header whose parent is the only entry of the
database writes exactly one new entry. -/
theorem header_add_cases_witness :
    header_add [(4, ⟨⟨0, 0⟩, 0, 0⟩)] 7 ⟨4, 1⟩ =
      (.Ok, List.append [(4, ⟨⟨0, 0⟩, 0, 0⟩)]
        [(7, DbHeader.new ⟨⟨0, 0⟩, 0, 0⟩ 0 ⟨4, 1⟩)]) :=
  (header_add_cases [(4, ⟨⟨0, 0⟩, 0, 0⟩)] 7 ⟨4, 1⟩).2.1 0 ⟨⟨0, 0⟩, 0, 0⟩ rfl rfl

end Bitcrust
